import Mathlib

/-
Verification of the response-parsing and persistence pipeline of the
Hebrew/Arabic word-builder bot (src/bot.py).

The Python source is shallowly embedded: strings are `List Char`, the
JSON values produced by `json.loads` are the inductive `Json`, the
spreadsheet is a list of rows of cell values, and each Python function
of interest (`call_deepseek`'s response processing,
`extract_roots_and_arabic`, `append_to_sheet`, `handle_callback`, the
button construction in `handle_message`) becomes a total Lean function.
Exceptions that the Python code catches are represented by `Option` /
explicit fallback branches; exceptions that escape a handler are the
explicit `raised` outcome.

Modelling notes, applying throughout:
- `str.strip()` removes the ASCII whitespace characters
  space, tab, newline, carriage return, vertical tab and form feed
  (the Unicode extras of Python's definition never arise here).
- `re` patterns are embedded as dedicated scanning functions that follow
  the Python regex engine's leftmost-match and greedy/lazy backtracking
  semantics for the three concrete patterns the source uses.
- the JSON parser models `json.loads` on the fragment the program can
  receive: null/true/false, integer numerals, strings with the
  single-character escapes, arrays and objects.  Float literals and
  \uXXXX escapes are outside the model (no claim involves them).
-/

/-- Whitespace as used by Python's `str.strip()` and the regex class `\s`
(ASCII part). -/
def isPySpace (c : Char) : Bool :=
  c = ' ' || c = '\t' || c = '\n' || c = '\r' || c = '\x0b' || c = '\x0c'

/-- Model of Python `s.strip()`: drop whitespace from both ends. -/
def stripL (s : List Char) : List Char :=
  ((s.dropWhile isPySpace).reverse.dropWhile isPySpace).reverse

/-- Model of Python `s.strip(chars)`: drop characters of the given set from
both ends. -/
def stripSet (cs : List Char) (s : List Char) : List Char :=
  ((s.dropWhile (fun c => c ∈ cs)).reverse.dropWhile (fun c => c ∈ cs)).reverse

/-- Fuelled worker for `replaceAll`. -/
def replaceAllGo (pat rep : List Char) : Nat → List Char → List Char
  | 0, s => s
  | fuel + 1, s =>
    if pat ≠ [] ∧ pat.isPrefixOf s then
      rep ++ replaceAllGo pat rep fuel (s.drop pat.length)
    else
      match s with
      | [] => []
      | c :: r => c :: replaceAllGo pat rep fuel r

/-- Model of Python `s.replace(pat, rep)`: replace every occurrence,
scanning left to right without overlap. -/
def replaceAll (pat rep s : List Char) : List Char :=
  replaceAllGo pat rep (s.length + 1) s

/-- Line-break characters recognised by Python `str.splitlines`. -/
def isLineBreak (c : Char) : Bool :=
  c = '\n' || c = '\r' || c = '\x0b' || c = '\x0c' ||
  c = '\x1c' || c = '\x1d' || c = '\x1e' || c = '\x85' ||
  c = '\u2028' || c = '\u2029'

/-- Fuelled worker for `splitlines`. -/
def splitlinesGo : Nat → List Char → List (List Char)
  | 0, _ => []
  | fuel + 1, s =>
    match s with
    | [] => []
    | _ =>
      let line := s.takeWhile (fun c => ¬ isLineBreak c)
      match s.dropWhile (fun c => ¬ isLineBreak c) with
      | '\r' :: '\n' :: r => line :: splitlinesGo fuel r
      | _ :: r => line :: splitlinesGo fuel r
      | [] => [line]

/-- Model of Python `s.splitlines()`: split at line breaks, treating
`"\r\n"` as a single break, with no trailing empty line. -/
def splitlines (s : List Char) : List (List Char) :=
  splitlinesGo (s.length + 1) s

/-- Fuelled worker for `splitOnChar`. -/
def splitOnCharGo (sep : Char) : Nat → List Char → List (List Char)
  | 0, _ => []
  | fuel + 1, s =>
    let piece := s.takeWhile (fun c => c ≠ sep)
    match s.dropWhile (fun c => c ≠ sep) with
    | _ :: r => piece :: splitOnCharGo sep fuel r
    | [] => [piece]

/-- Model of Python `s.split(sep)` for a one-character separator: every
occurrence separates, empty pieces are kept. -/
def splitOnChar (sep : Char) (s : List Char) : List (List Char) :=
  splitOnCharGo sep (s.length + 1) s

/-- JSON values as produced by `json.loads` (integer numerals only; see
the header note). -/
inductive Json where
  | null : Json
  | bool (b : Bool) : Json
  | num (n : Int) : Json
  | str (s : List Char) : Json
  | arr (xs : List Json) : Json
  | obj (kvs : List (List Char × Json)) : Json

mutual

def Json.decEq : (a b : Json) → Decidable (a = b)
  | .null, .null => .isTrue rfl
  | .bool a, .bool b =>
    if h : a = b then .isTrue (by rw [h]) else .isFalse (fun he => h (by cases he; rfl))
  | .num a, .num b =>
    if h : a = b then .isTrue (by rw [h]) else .isFalse (fun he => h (by cases he; rfl))
  | .str a, .str b =>
    if h : a = b then .isTrue (by rw [h]) else .isFalse (fun he => h (by cases he; rfl))
  | .arr xs, .arr ys =>
    match Json.decEqList xs ys with
    | .isTrue h => .isTrue (by rw [h])
    | .isFalse h => .isFalse (fun he => h (by cases he; rfl))
  | .obj xs, .obj ys =>
    match Json.decEqKVs xs ys with
    | .isTrue h => .isTrue (by rw [h])
    | .isFalse h => .isFalse (fun he => h (by cases he; rfl))
  | .null, .bool _ => .isFalse (fun h => Json.noConfusion h)
  | .null, .num _ => .isFalse (fun h => Json.noConfusion h)
  | .null, .str _ => .isFalse (fun h => Json.noConfusion h)
  | .null, .arr _ => .isFalse (fun h => Json.noConfusion h)
  | .null, .obj _ => .isFalse (fun h => Json.noConfusion h)
  | .bool _, .null => .isFalse (fun h => Json.noConfusion h)
  | .bool _, .num _ => .isFalse (fun h => Json.noConfusion h)
  | .bool _, .str _ => .isFalse (fun h => Json.noConfusion h)
  | .bool _, .arr _ => .isFalse (fun h => Json.noConfusion h)
  | .bool _, .obj _ => .isFalse (fun h => Json.noConfusion h)
  | .num _, .null => .isFalse (fun h => Json.noConfusion h)
  | .num _, .bool _ => .isFalse (fun h => Json.noConfusion h)
  | .num _, .str _ => .isFalse (fun h => Json.noConfusion h)
  | .num _, .arr _ => .isFalse (fun h => Json.noConfusion h)
  | .num _, .obj _ => .isFalse (fun h => Json.noConfusion h)
  | .str _, .null => .isFalse (fun h => Json.noConfusion h)
  | .str _, .bool _ => .isFalse (fun h => Json.noConfusion h)
  | .str _, .num _ => .isFalse (fun h => Json.noConfusion h)
  | .str _, .arr _ => .isFalse (fun h => Json.noConfusion h)
  | .str _, .obj _ => .isFalse (fun h => Json.noConfusion h)
  | .arr _, .null => .isFalse (fun h => Json.noConfusion h)
  | .arr _, .bool _ => .isFalse (fun h => Json.noConfusion h)
  | .arr _, .num _ => .isFalse (fun h => Json.noConfusion h)
  | .arr _, .str _ => .isFalse (fun h => Json.noConfusion h)
  | .arr _, .obj _ => .isFalse (fun h => Json.noConfusion h)
  | .obj _, .null => .isFalse (fun h => Json.noConfusion h)
  | .obj _, .bool _ => .isFalse (fun h => Json.noConfusion h)
  | .obj _, .num _ => .isFalse (fun h => Json.noConfusion h)
  | .obj _, .str _ => .isFalse (fun h => Json.noConfusion h)
  | .obj _, .arr _ => .isFalse (fun h => Json.noConfusion h)

def Json.decEqList : (xs ys : List Json) → Decidable (xs = ys)
  | [], [] => .isTrue rfl
  | [], _ :: _ => .isFalse (fun h => List.noConfusion h)
  | _ :: _, [] => .isFalse (fun h => List.noConfusion h)
  | x :: xs, y :: ys =>
    match Json.decEq x y with
    | .isTrue h1 =>
      match Json.decEqList xs ys with
      | .isTrue h2 => .isTrue (by rw [h1, h2])
      | .isFalse h2 => .isFalse (fun he => h2 (by cases he; rfl))
    | .isFalse h1 => .isFalse (fun he => h1 (by cases he; rfl))

def Json.decEqKVs : (xs ys : List (List Char × Json)) → Decidable (xs = ys)
  | [], [] => .isTrue rfl
  | [], _ :: _ => .isFalse (fun h => List.noConfusion h)
  | _ :: _, [] => .isFalse (fun h => List.noConfusion h)
  | (k, v) :: xs, (l, w) :: ys =>
    if hk : k = l then
      match Json.decEq v w with
      | .isTrue h1 =>
        match Json.decEqKVs xs ys with
        | .isTrue h2 => .isTrue (by rw [hk, h1, h2])
        | .isFalse h2 => .isFalse (fun he => h2 (by cases he; rfl))
      | .isFalse h1 => .isFalse (fun he => h1 (by cases he; rfl))
    else .isFalse (fun he => hk (by cases he; rfl))

end

instance : DecidableEq Json := Json.decEq

/-- Whitespace skipped between JSON tokens by `json.loads`. -/
def skipWs (s : List Char) : List Char :=
  s.dropWhile (fun c => c = ' ' || c = '\t' || c = '\n' || c = '\r')

/-- Translation of a JSON single-character escape. -/
def escChar : Char → Option Char
  | '"' => some '"'
  | '\\' => some '\\'
  | '/' => some '/'
  | 'b' => some '\x08'
  | 'f' => some '\x0c'
  | 'n' => some '\n'
  | 'r' => some '\r'
  | 't' => some '\t'
  | _ => none

/-- Parse the body of a JSON string after the opening quote; returns the
content and the remainder after the closing quote. -/
def parseStrBody : List Char → Option (List Char × List Char)
  | [] => none
  | '"' :: r => some ([], r)
  | '\\' :: e :: r =>
    match escChar e with
    | some c => (parseStrBody r).map (fun p => (c :: p.1, p.2))
    | none => none
  | c :: r => (parseStrBody r).map (fun p => (c :: p.1, p.2))

/-- Numeric value of a list of decimal digit characters. -/
def digitsToNat (ds : List Char) : Nat :=
  ds.foldl (fun a c => a * 10 + (c.toNat - 48)) 0

/-- Parse a JSON integer numeral (optional minus sign, no leading zeros,
no fraction or exponent — floats are outside the model). -/
def parseNumBody (s : List Char) : Option (Int × List Char) :=
  let (neg, s1) := match s with
    | '-' :: r => (true, r)
    | _ => (false, s)
  let ds := s1.takeWhile Char.isDigit
  let rest := s1.dropWhile Char.isDigit
  if ds = [] then none
  else if ds.head? = some '0' ∧ ds.length > 1 then none
  else match rest with
    | '.' :: _ => none
    | 'e' :: _ => none
    | 'E' :: _ => none
    | _ => some (if neg then -(digitsToNat ds : Int) else (digitsToNat ds : Int), rest)

mutual

/-- Parse one JSON value (fuelled). -/
def parseVal : Nat → List Char → Option (Json × List Char)
  | 0, _ => none
  | fuel + 1, s =>
    match skipWs s with
    | 'n' :: 'u' :: 'l' :: 'l' :: r => some (.null, r)
    | 't' :: 'r' :: 'u' :: 'e' :: r => some (.bool true, r)
    | 'f' :: 'a' :: 'l' :: 's' :: 'e' :: r => some (.bool false, r)
    | '"' :: r => (parseStrBody r).map (fun p => (.str p.1, p.2))
    | '[' :: r =>
      (match skipWs r with
       | ']' :: r2 => some (.arr [], r2)
       | _ => (parseItems fuel r).map (fun p => (.arr p.1, p.2)))
    | '{' :: r =>
      (match skipWs r with
       | '}' :: r2 => some (.obj [], r2)
       | _ => (parseMembers fuel r).map (fun p => (.obj p.1, p.2)))
    | s' => (parseNumBody s').map (fun p => (.num p.1, p.2))

/-- Parse the comma-separated items of a non-empty JSON array, including
the closing bracket (fuelled). -/
def parseItems : Nat → List Char → Option (List Json × List Char)
  | 0, _ => none
  | fuel + 1, s =>
    match parseVal fuel s with
    | none => none
    | some (j, rest) =>
      match skipWs rest with
      | ',' :: r2 => (parseItems fuel r2).map (fun p => (j :: p.1, p.2))
      | ']' :: r2 => some ([j], r2)
      | _ => none

/-- Parse the members of a non-empty JSON object, including the closing
brace (fuelled). -/
def parseMembers : Nat → List Char → Option (List (List Char × Json) × List Char)
  | 0, _ => none
  | fuel + 1, s =>
    match skipWs s with
    | '"' :: r =>
      (match parseStrBody r with
       | none => none
       | some (k, rest) =>
         match skipWs rest with
         | ':' :: r2 =>
           (match parseVal fuel r2 with
            | none => none
            | some (v, rest2) =>
              match skipWs rest2 with
              | ',' :: r3 => (parseMembers fuel r3).map (fun p => ((k, v) :: p.1, p.2))
              | '}' :: r3 => some ([(k, v)], r3)
              | _ => none)
         | _ => none)
    | _ => none

end

/-- Model of `json.loads`: parse one value and require only whitespace to
remain (otherwise Python raises the "Extra data" error, here `none`). -/
def json_loads (s : List Char) : Option Json :=
  match parseVal (2 * s.length + 4) s with
  | some (j, rest) => if skipWs rest = [] then some j else none
  | none => none

/-- Lookup in a decoded JSON object, as Python `d[key]`: `none` models the
exception Python raises (`KeyError` for a missing key, `TypeError` for a
non-object).  For duplicate keys `json.loads` keeps the last binding. -/
def dGet (d : Json) (key : List Char) : Option Json :=
  match d with
  | .obj kvs => kvs.foldl (fun acc kv => if kv.1 = key then some kv.2 else acc) none
  | _ => none

/-- The literal marker `"DERIVED_JSON:"` searched for at bot.py:194. -/
def markerL : List Char := "DERIVED_JSON:".data

/-- Index of the last occurrence of a character in a list. -/
def lastIdxOf (c : Char) : List Char → Option Nat
  | [] => none
  | a :: r =>
    match lastIdxOf c r with
    | some j => some (j + 1)
    | none => if a = c then some 0 else none

/-- The greedy span `\[[\s\S]*\]` anchored at the start of `s`: succeeds
when `s` begins with `'['` and some `']'` follows, and spans through the
LAST `']'` (the regex is greedy). -/
def greedySpan (s : List Char) : Option (List Char) :=
  match s with
  | '[' :: rest =>
    (match lastIdxOf ']' rest with
     | some j => some ('[' :: rest.take (j + 1))
     | none => none)
  | _ => none

/-- Model of `re.search(r"DERIVED_JSON:\s*(\[[\s\S]*\])", s)` (bot.py:194):
scan left to right for an occurrence of the marker that is followed, after
optional whitespace, by a greedy bracket span.  Returns
(match start, match end, group 1). -/
def findMarker : List Char → Nat → Option (Nat × Nat × List Char)
  | [], _ => none
  | c :: rest, i =>
    if markerL.isPrefixOf (c :: rest) then
      let after := (c :: rest).drop markerL.length
      match greedySpan (after.dropWhile isPySpace) with
      | some g =>
        some (i, i + markerL.length + (after.takeWhile isPySpace).length + g.length, g)
      | none => findMarker rest (i + 1)
    else findMarker rest (i + 1)

/-- Model of the fallback `re.search(r"(\[[\s\S]*\])", s)` (bot.py:201):
scan left to right for a `'['` from which a greedy bracket span starts.
Returns (match start, match end, group 1). -/
def findFallback : List Char → Nat → Option (Nat × Nat × List Char)
  | [], _ => none
  | c :: rest, i =>
    match greedySpan (c :: rest) with
    | some g => some (i, i + g.length, g)
    | none => findFallback rest (i + 1)

/-- Code-fence removal and trim of bot.py:189:
`text.replace("```json", "").replace("```", "").strip()`. -/
def cleanStrip (t : List Char) : List Char :=
  stripL (replaceAll "```".data [] (replaceAll "```json".data [] t))

/-- The extraction split of bot.py:189-208: returns
(main_text, json_block or absent).  On the marker path the display text is
everything before the match; on the fallback path the matched span is cut
out of the text; when both searches fail the ORIGINAL text (only stripped,
fences not removed) is returned with an absent payload. -/
def processText (t : List Char) : List Char × Option (List Char) :=
  let cleaned := cleanStrip t
  match findMarker cleaned 0 with
  | some (st, _, g) => (stripL (cleaned.take st), some (stripL g))
  | none =>
    match findFallback cleaned 0 with
    | some (st, en, g) => (stripL (cleaned.take st ++ cleaned.drop en), some (stripL g))
    | none => (stripL t, none)

/-- The decode step of bot.py:210-217: `json.loads` the block; a non-list
result is wrapped into a one-element list; any parse failure is caught and
yields the empty list. -/
def decodeBlock (s : List Char) : List Json :=
  match json_loads s with
  | none => []
  | some (.arr xs) => xs
  | some j => [j]

/-- Decoder on an optional payload: the absent payload (no JSON found in
the response, bot.py:208) yields the empty list. -/
def parseDerived : Option (List Char) → List Json
  | none => []
  | some s => decodeBlock s

/-- Response processing of `call_deepseek` (bot.py:187-222), taking the
model's raw response text: returns (main_text, derived). -/
def call_deepseek (text : List Char) : List Char × List Json :=
  let p := processText text
  (stripL p.1, parseDerived p.2)

/-- Lazy capture of `(.+?)\s*core meaning` (pattern at bot.py:236): the
shortest non-empty capture (not crossing a line break) whose remainder,
after whitespace, begins with the literal `"core meaning"`. -/
def lazyCapCore : List Char → Option (List Char)
  | [] => none
  | c :: r =>
    if c = '\n' then none
    else if "core meaning".data.isPrefixOf (r.dropWhile isPySpace) then some [c]
    else (lazyCapCore r).map (fun g => c :: g)

/-- Backtracking over the greedy `\s*` that precedes the lazy capture:
longest whitespace run first, shrinking on failure. -/
def tryWsCore : Nat → List Char → Option (List Char)
  | 0, r => lazyCapCore r
  | j + 1, r =>
    match lazyCapCore (r.drop (j + 1)) with
    | some g => some g
    | none => tryWsCore j r

/-- Matches `\s*(.+?)\s*core meaning` against the text after the `'='`. -/
def capAfterEq (r2 : List Char) : Option (List Char) :=
  tryWsCore (r2.takeWhile isPySpace).length r2

/-- Matches `\s*=\s*(.+?)\s*core meaning` against the text after `"root"`
(`\s*` followed by a non-whitespace literal is deterministic). -/
def rootTail (r : List Char) : Option (List Char) :=
  match r.dropWhile isPySpace with
  | '=' :: r2 => capAfterEq r2
  | _ => none

/-- Model of `re.search(r"root\s*=\s*(.+?)\s*core meaning", line)`
(bot.py:236): leftmost occurrence of `"root"` whose tail matches; returns
group 1. -/
def rootCoreSearch : List Char → Option (List Char)
  | [] => none
  | c :: rest =>
    if "root".data.isPrefixOf (c :: rest) then
      match rootTail ((c :: rest).drop 4) with
      | some cap => some cap
      | none => rootCoreSearch rest
    else rootCoreSearch rest

/-- Matches `\s*(.+)$` against the text after the `'='` (bot.py:245).
Callers pass single lines, so no line-break handling is needed: the
greedy group 2 is everything after the leading whitespace, except that a
non-empty all-whitespace remainder yields its last character. -/
def capAfterEqAr (r3 : List Char) : Option (List Char) :=
  let t := r3.dropWhile isPySpace
  if t.isEmpty then
    match r3.getLast? with
    | some c => some [c]
    | none => none
  else some t

/-- Lazy capture of `(.+?)\s*=\s*(.+)$`: shortest non-empty group 1 after
which, past whitespace, an `'='` and a viable group 2 follow. -/
def lazyCapAr : List Char → Option (List Char × List Char)
  | [] => none
  | c :: r =>
    if c = '\n' then none
    else
      match
        (match r.dropWhile isPySpace with
         | '=' :: r3 => capAfterEqAr r3
         | _ => none) with
      | some g2 => some ([c], g2)
      | none => (lazyCapAr r).map (fun p => (c :: p.1, p.2))

/-- Backtracking over the greedy `\s+` (at least one character): longest
whitespace run first, shrinking on failure. -/
def tryWsAr : Nat → List Char → Option (List Char × List Char)
  | 0, _ => none
  | j + 1, r =>
    match lazyCapAr (r.drop (j + 1)) with
    | some p => some p
    | none => tryWsAr j r

/-- Matches `\s+(.+?)\s*=\s*(.+)$` against the text after the literal
`"Arabic cognate root"`. -/
def arTail (r : List Char) : Option (List Char × List Char) :=
  tryWsAr (r.takeWhile isPySpace).length r

/-- Model of
`re.search(r"Arabic cognate root\s+(.+?)\s*=\s*(.+)$", line)` (bot.py:245):
leftmost occurrence of the literal whose tail matches; returns
(group 1, group 2). -/
def arRootSearch : List Char → Option (List Char × List Char)
  | [] => none
  | c :: rest =>
    if "Arabic cognate root".data.isPrefixOf (c :: rest) then
      match arTail ((c :: rest).drop 19) with
      | some p => some p
      | none => arRootSearch rest
    else arRootSearch rest

/-- The line preprocessing of bot.py:232:
`[l.strip() for l in main_text.splitlines() if l.strip()]`. -/
def stripLines (t : List Char) : List (List Char) :=
  ((splitlines t).map stripL).filter (fun l => !l.isEmpty)

/-- Model of Python's substring test `pat in s`. -/
def occursIn (pat : List Char) : List Char → Bool
  | [] => pat.isEmpty
  | c :: r => pat.isPrefixOf (c :: r) || occursIn pat r

/-- One iteration of the first loop of `extract_roots_and_arabic`
(bot.py:234-247) over the state (heb_root, ar_root, ar_examples). -/
def loop1Step (st : List Char × List Char × List Char) (line : List Char) :
    List Char × List Char × List Char :=
  let heb' :=
    if occursIn " root =".data line then
      match rootCoreSearch line with
      | some cap => stripL cap
      | none => st.1
    else st.1
  let ar' :=
    if "Arabic cognate root".data.isPrefixOf line then
      if occursIn "= none".data line then ("none".data, "none".data)
      else
        match arRootSearch line with
        | some p => (stripL p.1 ++ " ".data ++ stripL p.2, st.2.2)
        | none => (st.2.1, st.2.2)
    else (st.2.1, st.2.2)
  (heb', ar')

/-- The cleanup applied to a collected example line (bot.py:257):
`line.strip("* ").strip()`. -/
def bulletClean (line : List Char) : List Char :=
  stripL (stripSet ['*', ' '] line)

/-- One iteration of the example-collecting loop (bot.py:252-257) over the
state (capture, examples). -/
def loop2Step (st : Bool × List (List Char)) (line : List Char) :
    Bool × List (List Char) :=
  if "Arabic examples".data.isPrefixOf line then (true, st.2)
  else if st.1 && "*".data.isPrefixOf line then
    (st.1, st.2 ++ [bulletClean line])
  else st

/-- The joining of collected examples (bot.py:259):
`examples[0] + ("\n* " + "\n* ".join(examples[1:]) if len(examples) > 1 else "")`,
with the empty collection giving the sentinel `"none"` (bot.py:261). -/
def joinExamples (exs : List (List Char)) : List Char :=
  match exs with
  | [] => "none".data
  | e :: rest =>
    e ++ (if rest.isEmpty then [] else "\n* ".data ++ List.intercalate "\n* ".data rest)

/-- Model of `extract_roots_and_arabic` (bot.py:227-263): returns
(heb_root, ar_root, ar_examples). -/
def extract_roots_and_arabic (main_text : List Char) : List Char × List Char × List Char :=
  let lines := stripLines main_text
  let r1 := lines.foldl loop1Step ("unknown".data, "none".data, "none".data)
  if r1.2.1 ≠ "none".data then
    (r1.1, r1.2.1, joinExamples (lines.foldl loop2Step (false, [])).2)
  else r1

/-- Rows of the external spreadsheet; cells hold the values the program
writes (decoded JSON values and the metadata strings). -/
abbrev Sheet := List (List Json)

/-- Operations issued against the storage boundary. -/
inductive SheetOp where
  | readCol : SheetOp
  | appendRow : List Json → SheetOp
deriving DecidableEq

/-- Model of `sheet.col_values(1)`: the first cell of every row. -/
def col_values1 (s : Sheet) : List Json :=
  s.map (fun r => r.head?.getD (Json.str []))

/-- Model of `append_to_sheet` (bot.py:268-280): read column 1, exclude
the header row, skip the write on a duplicate headword, otherwise append
the fixed-order row.  Returns (saved?, issued ops, new sheet state). -/
def append_to_sheet (s : Sheet)
    (hebrew translit english heb_root ar_root ar_examples : Json) :
    Bool × List SheetOp × Sheet :=
  let all_vals := col_values1 s
  let existing := if all_vals.length > 1 then all_vals.drop 1 else []
  if hebrew ∈ existing then (false, [SheetOp.readCol], s)
  else
    (true,
     [SheetOp.readCol, SheetOp.appendRow [hebrew, translit, english, heb_root, ar_root, ar_examples]],
     s ++ [[hebrew, translit, english, heb_root, ar_root, ar_examples]])

/-- The per-chat cached analysis stored in `LAST_RESULTS` (bot.py:313). -/
structure CacheEntry where
  heb_root : List Char
  ar_root : List Char
  ar_examples : List Char
  derived : List Json
deriving DecidableEq

/-- The short status label answered to a button press. -/
inductive CbAnswer where
  | bad : CbAnswer
  | expired : CbAnswer
  | ok : CbAnswer
  | dup : CbAnswer
  | err : CbAnswer
deriving DecidableEq

/-- Outcome of `handle_callback`: an answered callback, or an exception
that escapes the handler (caught only by the main loop). -/
inductive CbOutcome where
  | answered : CbAnswer → CbOutcome
  | raised : CbOutcome
deriving DecidableEq

/-- Python list indexing `l[i]` with negative-index wrap-around; `none`
models `IndexError`. -/
def pyIndex {α : Type} (l : List α) (i : Int) : Option α :=
  let j : Int := if i < 0 then i + l.length else i
  if 0 ≤ j then l.get? j.toNat else none

/-- Digit-string parse used by `parseIntPy`. -/
def parseNatDigits (s : List Char) : Option Nat :=
  if s ≠ [] ∧ s.all Char.isDigit then some (digitsToNat s) else none

/-- Model of Python `int(s)`: surrounding whitespace allowed, optional
sign, decimal digits; `none` models `ValueError`.  (Underscore grouping is
outside the model.) -/
def parseIntPy (s : List Char) : Option Int :=
  match stripL s with
  | '-' :: ds => (parseNatDigits ds).map (fun n => -(n : Int))
  | '+' :: ds => (parseNatDigits ds).map (fun n => (n : Int))
  | ds => (parseNatDigits ds).map (fun n => (n : Int))

/-- The try-block of `handle_callback` (bot.py:353-364): look up the three
fields of the selected record (a failure is caught and answered as an
error, before any storage access) and invoke `append_to_sheet` with the
cached metadata. -/
def saveSelected (d : Json) (e : CacheEntry) (s : Sheet) :
    CbOutcome × List SheetOp × Sheet :=
  match dGet d "hebrew".data, dGet d "translit".data, dGet d "english".data with
  | some h, some t, some g =>
    let r := append_to_sheet s h t g (Json.str e.heb_root) (Json.str e.ar_root)
      (Json.str e.ar_examples)
    (CbOutcome.answered (if r.1 then CbAnswer.ok else CbAnswer.dup), r.2.1, r.2.2)
  | _, _, _ => (CbOutcome.answered CbAnswer.err, [], s)

/-- Model of `handle_callback` (bot.py:337-367) on the callback token, the
cache slot of the conversation, and the sheet state: returns the outcome,
the storage operations performed, and the new sheet state. -/
def handle_callback (data : List Char) (cached : Option CacheEntry) (s : Sheet) :
    CbOutcome × List SheetOp × Sheet :=
  if "save:".data.isPrefixOf data then
    match (splitOnChar ':' data)[1]? with
    | none => (CbOutcome.raised, [], s)
    | some piece =>
      match parseIntPy piece with
      | none => (CbOutcome.raised, [], s)
      | some idx =>
        match cached with
        | none => (CbOutcome.answered CbAnswer.expired, [], s)
        | some e =>
          if (e.derived.length : Int) ≤ idx then (CbOutcome.answered CbAnswer.expired, [], s)
          else
            match pyIndex e.derived idx with
            | none => (CbOutcome.raised, [], s)
            | some d => saveSelected d e s
  else (CbOutcome.answered CbAnswer.bad, [], s)

/-- A well-formed derived-word record (the three string fields present);
the button-building claim quantifies over these. -/
structure DerivedWord where
  hebrew : List Char
  translit : List Char
  english : List Char
deriving DecidableEq

/-- The label before truncation (bot.py:322):
`f"{d['hebrew']} - {d['translit']} - {d['english']}"`. -/
def fullLabel (d : DerivedWord) : List Char :=
  d.hebrew ++ " - ".data ++ d.translit ++ " - ".data ++ d.english

/-- The truncation of bot.py:323-324: labels longer than 60 characters are
cut to 57 characters plus `"..."`. -/
def buttonLabel (d : DerivedWord) : List Char :=
  if (fullLabel d).length > 60 then (fullLabel d).take 57 ++ "...".data
  else fullLabel d

/-- The button list of bot.py:320-328: one (label, callback token) pair
per derived word, the token encoding the index as `f"save:{i}"`. -/
def buildButtons (derived : List DerivedWord) : List (List Char × List Char) :=
  derived.enum.map (fun p => (buttonLabel p.2, "save:".data ++ (toString p.1).data))

/-- The value a single line contributes to `heb_root` (the guarded
assignment of bot.py:235-238): the stripped capture, when the line
contains `" root ="` and the pattern matches. -/
def rootLineValue (line : List Char) : Option (List Char) :=
  if occursIn " root =".data line then (rootCoreSearch line).map stripL else none

/-- Declarative description of which line determines `heb_root` in the
code: the LAST contributing line wins (the loop has no break). -/
def lastRootSpec (t : List Char) : List Char :=
  ((((stripLines t).filterMap rootLineValue).getLast?).getD "unknown".data)

/-- Modelled from the spec's words (claim C7): the FIRST line containing
`" root ="` followed on the same line by `"core meaning"` supplies the
root description. -/
def firstRootSpec (t : List Char) : List Char :=
  ((((stripLines t).filterMap rootLineValue).head?).getD "unknown".data)

/-- Declarative description of the example lines the code collects: ALL
bullet lines anywhere after the first examples-marker line (the capture
flag of bot.py:251-257 is never reset). -/
def bulletsAfterMarker : List (List Char) → List (List Char)
  | [] => []
  | l :: ls =>
    if "Arabic examples".data.isPrefixOf l then
      (ls.filter (fun x => "*".data.isPrefixOf x)).map bulletClean
    else bulletsAfterMarker ls

/-- Modelled from the spec's words (claim C8): only the bullet lines
IMMEDIATELY following the examples marker line, stopping at the first
non-bullet line. -/
def immediateBullets : List (List Char) → List (List Char)
  | [] => []
  | l :: ls =>
    if "Arabic examples".data.isPrefixOf l then
      (ls.takeWhile (fun x => "*".data.isPrefixOf x)).map bulletClean
    else immediateBullets ls

/-- Worker for `matchingSpan`: scan at bracket depth `d`, keeping the
scanned characters, and stop at the bracket that closes depth 1. -/
def msGo : Nat → List Char → Option (List Char)
  | _, [] => none
  | d, c :: r =>
    if c = ']' then
      (if d = 1 then some [c] else (msGo (d - 1) r).map (fun g => c :: g))
    else if c = '[' then (msGo (d + 1) r).map (fun g => c :: g)
    else (msGo d r).map (fun g => c :: g)

/-- Modelled from the spec's words (claim C2): the span from a leading
`'['` through its MATCHING `']'` (bracket counting), not through a later
unmatched `']'`. -/
def matchingSpan : List Char → Option (List Char)
  | '[' :: r => (msGo 1 r).map (fun g => '[' :: g)
  | _ => none

/-- Concrete cache entry used by witnesses: two well-formed derived
records. -/
def exEntry : CacheEntry :=
  { heb_root := "R".data
    ar_root := "none".data
    ar_examples := "none".data
    derived :=
      [Json.obj [("hebrew".data, Json.str "x".data), ("translit".data, Json.str "t".data),
                 ("english".data, Json.str "g".data)],
       Json.obj [("hebrew".data, Json.str "y".data), ("translit".data, Json.str "u".data),
                 ("english".data, Json.str "h".data)]] }

/-- Concrete sheet used by witnesses: a single header row. -/
def exSheet : Sheet := [[Json.str "headword-header".data]]

/-
THEOREMS.

First the generic helper lemmas about the string utilities, then one
theorem per claim (with its witness or counterexample).
-/

theorem dropWhile_no_head (p : Char → Bool) (l : List Char) (c : Char)
    (h : (l.dropWhile p).head? = some c) : p c = false := by
  induction l with
  | nil => simp [List.dropWhile] at h
  | cons a as ih =>
    rw [List.dropWhile_cons] at h
    by_cases hp : p a = true
    · rw [if_pos hp] at h
      exact ih h
    · rw [if_neg hp] at h
      simp only [List.head?_cons, Option.some.injEq] at h
      subst h
      simpa using hp

theorem dropWhile_eq_self (p : Char → Bool) (l : List Char)
    (h : ∀ c, l.head? = some c → p c = false) : l.dropWhile p = l := by
  cases l with
  | nil => rfl
  | cons a as =>
    rw [List.dropWhile_cons, if_neg]
    simp [h a rfl]

theorem stripL_eq_self (s : List Char)
    (hh : ∀ c, s.head? = some c → isPySpace c = false)
    (hl : ∀ c, s.getLast? = some c → isPySpace c = false) : stripL s = s := by
  unfold stripL
  rw [dropWhile_eq_self _ _ hh]
  rw [dropWhile_eq_self, List.reverse_reverse]
  intro c hc
  rw [List.head?_reverse] at hc
  exact hl c hc

theorem dropWhile_getLast (p : Char → Bool) (l : List Char)
    (h : l.dropWhile p ≠ []) : (l.dropWhile p).getLast? = l.getLast? := by
  induction l with
  | nil => simp [List.dropWhile] at h
  | cons a as ih =>
    rw [List.dropWhile_cons]
    by_cases hp : p a = true
    · rw [List.dropWhile_cons, if_pos hp] at h
      rw [if_pos hp, ih h]
      cases as with
      | nil => simp [List.dropWhile] at h
      | cons b bs => rw [List.getLast?_cons_cons]
    · rw [if_neg hp]

theorem stripL_head (s : List Char) (c : Char)
    (h : (stripL s).head? = some c) : isPySpace c = false := by
  unfold stripL at h
  rw [List.head?_reverse] at h
  have hne : (s.dropWhile isPySpace).reverse.dropWhile isPySpace ≠ [] := by
    intro he
    rw [he] at h
    simp at h
  rw [dropWhile_getLast _ _ hne, List.getLast?_reverse] at h
  exact dropWhile_no_head _ _ _ h

theorem stripL_last (s : List Char) (c : Char)
    (h : (stripL s).getLast? = some c) : isPySpace c = false := by
  unfold stripL at h
  rw [List.getLast?_reverse] at h
  exact dropWhile_no_head _ _ _ h

theorem stripL_idem (s : List Char) : stripL (stripL s) = stripL s :=
  stripL_eq_self _ (stripL_head s) (stripL_last s)

/-- C5: for every payload input the decoder returns a sequence without
raising — an absent payload yields the empty sequence, a payload that
fails structured parsing yields the empty sequence, and a successfully
parsed single non-sequence value is wrapped into a one-element sequence.
(The decoder is a total function, so no exception can escape.) -/
theorem c5_decoder_never_raises :
    parseDerived none = [] ∧
    (∀ s : List Char, json_loads s = none → parseDerived (some s) = []) ∧
    (∀ (s : List Char) (j : Json), json_loads s = some j →
      (∀ xs, j ≠ Json.arr xs) → parseDerived (some s) = [j]) := by
  refine ⟨rfl, ?_, ?_⟩
  · intro s h
    simp only [parseDerived, decodeBlock]
    rw [h]
  · intro s j h hj
    simp only [parseDerived, decodeBlock]
    rw [h]
    cases j with
    | arr xs => exact absurd rfl (hj xs)
    | null => rfl
    | bool b => rfl
    | num n => rfl
    | str t => rfl
    | obj kvs => rfl

/-- Witness for C5: a malformed payload decodes to the empty sequence and
a single parsed object is wrapped into a one-element sequence. -/
theorem c5_decoder_never_raises_witness :
    parseDerived (some "not json".data) = [] ∧
    parseDerived (some "\x7b\x7d".data) = [Json.obj []] :=
  ⟨c5_decoder_never_raises.2.1 "not json".data rfl,
   c5_decoder_never_raises.2.2 "\x7b\x7d".data (Json.obj [])
     rfl (fun _ h => Json.noConfusion h)⟩

/-- Counterexample to C1 as stated: the payload `[{"hebrew": "x"}]`
decodes successfully, and the resulting sequence contains a record that
lacks the `translit` and `english` keys — the element is passed through,
neither dropped nor replaced by the empty-sequence fallback. -/
theorem c1_counterexample :
    decodeBlock "[\x7b\"hebrew\": \"x\"\x7d]".data =
      [Json.obj [("hebrew".data, Json.str "x".data)]] ∧
    dGet (Json.obj [("hebrew".data, Json.str "x".data)]) "translit".data = none ∧
    dGet (Json.obj [("hebrew".data, Json.str "x".data)]) "english".data = none :=
  ⟨rfl, rfl, rfl⟩

/-- C1 (amended): the decoder performs no per-element validation of the
three required keys — every element of a successfully parsed array is
passed through unchanged (key-complete or not); the empty-sequence
fallback occurs only when the payload as a whole fails to parse. -/
theorem c1_amended_no_element_validation (s : List Char) (xs : List Json)
    (h : json_loads s = some (Json.arr xs)) :
    parseDerived (some s) = xs := by
  simp only [parseDerived, decodeBlock]
  rw [h]

/-- Witness for the amended C1: a concrete array whose only element lacks
two of the required keys is decoded element-for-element. -/
theorem c1_amended_no_element_validation_witness :
    parseDerived (some "[\x7b\"hebrew\": \"x\"\x7d]".data) =
      [Json.obj [("hebrew".data, Json.str "x".data)]] :=
  c1_amended_no_element_validation _ _ rfl

theorem pyIndex_neg {α : Type} (l : List α) (k : Nat) (hk1 : 1 ≤ k) (hk2 : k ≤ l.length)
    (hlt : l.length - k < l.length) :
    pyIndex l (-(k : Int)) = some (l.get ⟨l.length - k, hlt⟩) := by
  simp only [pyIndex]
  have h5 : (-(k : Int) < 0) := by omega
  rw [if_pos h5]
  have h6 : (0 : Int) ≤ -(k : Int) + l.length := by omega
  rw [if_pos h6]
  have h7 : (-(k : Int) + l.length).toNat = l.length - k := by omega
  rw [h7, List.get?_eq_get hlt]

theorem saveSelected_ne_expired (d : Json) (e : CacheEntry) (s : Sheet) :
    (saveSelected d e s).1 ≠ CbOutcome.answered CbAnswer.expired := by
  unfold saveSelected
  cases dGet d "hebrew".data with
  | none => simp
  | some h =>
    cases dGet d "translit".data with
    | none => simp
    | some t =>
      cases dGet d "english".data with
      | none => simp
      | some g =>
        simp only []
        split <;> simp_all

/-- C3: a save selection whose index is out of range (or arrives when no
cache entry exists for the conversation) is answered "expired": no
exception escapes the handler, no storage operation is issued, and the
sheet is unchanged. -/
theorem c3_out_of_range_expired (data piece : List Char) (i : Int)
    (cached : Option CacheEntry) (s : Sheet)
    (h1 : "save:".data.isPrefixOf data = true)
    (h2 : (splitOnChar ':' data)[1]? = some piece)
    (h3 : parseIntPy piece = some i)
    (h4 : cached = none ∨ ∃ e, cached = some e ∧ (e.derived.length : Int) ≤ i) :
    handle_callback data cached s = (CbOutcome.answered CbAnswer.expired, [], s) := by
  rcases h4 with h4 | ⟨e, he, hlen⟩
  · subst h4
    simp [handle_callback, h1, h2, h3]
  · subst he
    simp [handle_callback, h1, h2, h3, hlen]

/-- Witness for C3: index 9 against a two-element cache entry is answered
"expired" with no storage access. -/
theorem c3_out_of_range_expired_witness :
    handle_callback "save:9".data (some exEntry) exSheet =
      (CbOutcome.answered CbAnswer.expired, [], exSheet) :=
  c3_out_of_range_expired "save:9".data "9".data 9 (some exEntry) exSheet
    (by decide) (by decide) (by decide)
    (Or.inr ⟨exEntry, rfl, by decide⟩)

/-- C10: a save token encoding a negative index `-k` with `1 ≤ k ≤ N`
passes the out-of-bounds check (which only rejects indices `≥ N`); the
selection resolves to the word at position `N - k` and the save proceeds
against it (so the outcome is never "expired"). -/
theorem c10_negative_index_saves (data piece : List Char) (k : Nat)
    (e : CacheEntry) (s : Sheet)
    (h1 : "save:".data.isPrefixOf data = true)
    (h2 : (splitOnChar ':' data)[1]? = some piece)
    (h3 : parseIntPy piece = some (-(k : Int)))
    (hk1 : 1 ≤ k) (hk2 : k ≤ e.derived.length) :
    ∃ hlt : e.derived.length - k < e.derived.length,
      handle_callback data (some e) s =
        saveSelected (e.derived.get ⟨e.derived.length - k, hlt⟩) e s ∧
      (handle_callback data (some e) s).1 ≠ CbOutcome.answered CbAnswer.expired := by
  have hlt : e.derived.length - k < e.derived.length := by omega
  have hcond : ¬ ((e.derived.length : Int) ≤ -(k : Int)) := by omega
  have hmain : handle_callback data (some e) s =
      saveSelected (e.derived.get ⟨e.derived.length - k, hlt⟩) e s := by
    simp [handle_callback, h1, h2, h3, hcond]
    rw [pyIndex_neg _ _ hk1 hk2 hlt]
    rfl
  exact ⟨hlt, hmain, by rw [hmain]; exact saveSelected_ne_expired _ _ _⟩

/-- Witness for C10: the token `"save:-1"` against a two-element cache
entry saves the last derived word instead of being rejected. -/
theorem c10_negative_index_saves_witness :
    ∃ hlt : exEntry.derived.length - 1 < exEntry.derived.length,
      handle_callback "save:-1".data (some exEntry) exSheet =
        saveSelected (exEntry.derived.get ⟨exEntry.derived.length - 1, hlt⟩) exEntry exSheet ∧
      (handle_callback "save:-1".data (some exEntry) exSheet).1 ≠
        CbOutcome.answered CbAnswer.expired :=
  c10_negative_index_saves "save:-1".data "-1".data 1 exEntry exSheet
    (by decide) (by decide) (by decide) (by decide) (by decide)

theorem append_dup (s : Sheet) (hw tr en hr ar ax : Json)
    (h : hw ∈ (col_values1 s).drop 1) :
    append_to_sheet s hw tr en hr ar ax = (false, [SheetOp.readCol], s) := by
  have hlen : (col_values1 s).length > 1 := by
    by_contra hn
    push_neg at hn
    rw [List.drop_eq_nil_of_le hn] at h
    exact absurd h (List.not_mem_nil hw)
  simp only [append_to_sheet]
  rw [if_pos hlen, if_pos h]

theorem append_fresh (s : Sheet) (hw tr en hr ar ax : Json)
    (h : hw ∉ (col_values1 s).drop 1) :
    append_to_sheet s hw tr en hr ar ax =
      (true, [SheetOp.readCol, SheetOp.appendRow [hw, tr, en, hr, ar, ax]],
       s ++ [[hw, tr, en, hr, ar, ax]]) := by
  simp only [append_to_sheet]
  by_cases hlen : (col_values1 s).length > 1
  · rw [if_pos hlen, if_neg h]
  · rw [if_neg hlen, if_neg (List.not_mem_nil hw)]

theorem col_values1_append_row (s : Sheet) (row : List Json) :
    col_values1 (s ++ [row]) = col_values1 s ++ [row.head?.getD (Json.str [])] := by
  unfold col_values1
  rw [List.map_append]
  rfl

/-- C4: the append operation reads the store's first column, excludes the
header row, and (a) on a duplicate headword performs no write and reports
duplicate, (b) on a fresh headword appends exactly one row in the fixed
column order and reports saved; hence (c) against a store that has its
header row, appending the same headword twice stores exactly one row, the
second attempt reporting duplicate. -/
theorem c4_duplicate_checked_append (s : Sheet)
    (hw tr en hr ar ax tr' en' hr' ar' ax' : Json) :
    (hw ∈ (col_values1 s).drop 1 →
      append_to_sheet s hw tr en hr ar ax = (false, [SheetOp.readCol], s)) ∧
    (hw ∉ (col_values1 s).drop 1 →
      append_to_sheet s hw tr en hr ar ax =
        (true, [SheetOp.readCol, SheetOp.appendRow [hw, tr, en, hr, ar, ax]],
         s ++ [[hw, tr, en, hr, ar, ax]])) ∧
    (s ≠ [] → hw ∉ (col_values1 s).drop 1 →
      (append_to_sheet s hw tr en hr ar ax).2.2 = s ++ [[hw, tr, en, hr, ar, ax]] ∧
      append_to_sheet (s ++ [[hw, tr, en, hr, ar, ax]]) hw tr' en' hr' ar' ax' =
        (false, [SheetOp.readCol], s ++ [[hw, tr, en, hr, ar, ax]])) := by
  refine ⟨append_dup s hw tr en hr ar ax, append_fresh s hw tr en hr ar ax, ?_⟩
  intro hne hfresh
  constructor
  · rw [append_fresh s hw tr en hr ar ax hfresh]
  · apply append_dup
    rw [col_values1_append_row]
    simp only [List.head?_cons, Option.getD_some]
    have h1 : 1 ≤ (col_values1 s).length := by
      unfold col_values1
      rw [List.length_map]
      cases s with
      | nil => exact absurd rfl hne
      | cons a l => simp
    rw [List.drop_append_of_le_length h1]
    exact List.mem_append.mpr (Or.inr (List.mem_singleton.mpr rfl))

/-- Witness for C4: against the one-row (header-only) sheet, a first
append stores the row and the immediate repeat of the same headword is
reported duplicate without writing. -/
theorem c4_duplicate_checked_append_witness :
    (append_to_sheet exSheet (Json.str "w".data) (Json.str "t".data) (Json.str "g".data)
        (Json.str "r".data) (Json.str "n".data) (Json.str "n".data)).2.2 =
      exSheet ++ [[Json.str "w".data, Json.str "t".data, Json.str "g".data,
                   Json.str "r".data, Json.str "n".data, Json.str "n".data]] ∧
    append_to_sheet
        (exSheet ++ [[Json.str "w".data, Json.str "t".data, Json.str "g".data,
                      Json.str "r".data, Json.str "n".data, Json.str "n".data]])
        (Json.str "w".data) (Json.str "t2".data) (Json.str "g2".data)
        (Json.str "r2".data) (Json.str "n2".data) (Json.str "n2".data) =
      (false, [SheetOp.readCol],
       exSheet ++ [[Json.str "w".data, Json.str "t".data, Json.str "g".data,
                    Json.str "r".data, Json.str "n".data, Json.str "n".data]]) :=
  (c4_duplicate_checked_append exSheet (Json.str "w".data) (Json.str "t".data)
      (Json.str "g".data) (Json.str "r".data) (Json.str "n".data) (Json.str "n".data)
      (Json.str "t2".data) (Json.str "g2".data) (Json.str "r2".data)
      (Json.str "n2".data) (Json.str "n2".data)).2.2
    (by decide) (by decide)

theorem buttonLabel_claim_form (d : DerivedWord) :
    buttonLabel d = (if (fullLabel d).length ≤ 60 then fullLabel d
      else (fullLabel d).take 57 ++ "...".data) := by
  unfold buttonLabel
  by_cases h : (fullLabel d).length > 60
  · rw [if_pos h, if_neg (by omega)]
  · rw [if_neg h, if_pos (by omega)]

theorem buttonLabel_le_60 (d : DerivedWord) : (buttonLabel d).length ≤ 60 := by
  unfold buttonLabel
  by_cases h : (fullLabel d).length > 60
  · rw [if_pos h, List.length_append, List.length_take]
    have h3 : ("...".data).length = 3 := rfl
    rw [h3]
    omega
  · rw [if_neg h]
    omega

/-- C9: the button for derived word `i` is labelled
`"<headword> - <transliteration> - <gloss>"` when that string has at most
60 characters and otherwise by its first 57 characters followed by the
ellipsis `"..."`; the label never exceeds 60 characters, and the button's
token is `"save:<i>"`. -/
theorem c9_buttons (derived : List DerivedWord) (i : Nat) (d : DerivedWord)
    (h : derived.get? i = some d) :
    (buildButtons derived).get? i =
      some ((if (fullLabel d).length ≤ 60 then fullLabel d
             else (fullLabel d).take 57 ++ "...".data),
            "save:".data ++ (toString i).data) ∧
    (buttonLabel d).length ≤ 60 := by
  constructor
  · unfold buildButtons
    rw [List.get?_map, List.get?_enum, h]
    simp only [Option.map_some']
    rw [buttonLabel_claim_form]
  · exact buttonLabel_le_60 d

/-- Witness for C9: a concrete one-word list yields the expected label and
token at index 0. -/
theorem c9_buttons_witness :
    (buildButtons [⟨"h".data, "t".data, "g".data⟩]).get? 0 =
      some ((if (fullLabel ⟨"h".data, "t".data, "g".data⟩).length ≤ 60
             then fullLabel ⟨"h".data, "t".data, "g".data⟩
             else (fullLabel ⟨"h".data, "t".data, "g".data⟩).take 57 ++ "...".data),
            "save:".data ++ (toString 0).data) ∧
    (buttonLabel ⟨"h".data, "t".data, "g".data⟩).length ≤ 60 :=
  c9_buttons [⟨"h".data, "t".data, "g".data⟩] 0 ⟨"h".data, "t".data, "g".data⟩ rfl

/-- Counterexample to C6 as stated: on a fenced response with no bracketed
array, the code returns the original text with the fences still present
(`text.strip()` at bot.py:208), not the fence-removed text. -/
theorem c6_counterexample :
    call_deepseek "``` hi ```".data = ("``` hi ```".data, []) ∧
    cleanStrip "``` hi ```".data = "hi".data ∧
    (call_deepseek "``` hi ```".data).1 ≠ cleanStrip "``` hi ```".data ∧
    findMarker (cleanStrip "``` hi ```".data) 0 = none ∧
    findFallback (cleanStrip "``` hi ```".data) 0 = none :=
  ⟨by decide, by decide, by decide, by decide, by decide⟩

/-- C6 (amended): when neither the marker search nor the bracket-scan
fallback finds a bracketed array in the cleaned text, the handler returns
the full trimmed ORIGINAL text (before code-fence removal) as the display
text, with an absent payload, and the derived-word sequence is empty. -/
theorem c6_amended_no_array_degraded (t : List Char)
    (h1 : findMarker (cleanStrip t) 0 = none)
    (h2 : findFallback (cleanStrip t) 0 = none) :
    call_deepseek t = (stripL t, []) := by
  simp only [call_deepseek, processText, h1, h2, parseDerived]
  rw [stripL_idem]

/-- Witness for the amended C6: a plain answer with no brackets is passed
through stripped, with no derived words. -/
theorem c6_amended_no_array_degraded_witness :
    call_deepseek " plain analysis, no derived words ".data =
      (stripL " plain analysis, no derived words ".data, []) :=
  c6_amended_no_array_degraded " plain analysis, no derived words ".data
    (by decide) (by decide)

theorem loop1Step_fst (st : List Char × List Char × List Char) (line : List Char) :
    (loop1Step st line).1 = (rootLineValue line).getD st.1 := by
  simp only [loop1Step, rootLineValue]
  by_cases h1 : occursIn " root =".data line = true
  · rw [if_pos h1, if_pos h1]
    cases hr : rootCoreSearch line with
    | some cap => simp [hr]
    | none => simp [hr]
  · rw [if_neg h1, if_neg h1]
    simp

theorem loop1_fst (ls : List (List Char)) : ∀ st : List Char × List Char × List Char,
    (ls.foldl loop1Step st).1 = ls.foldl (fun h l => (rootLineValue l).getD h) st.1 := by
  induction ls with
  | nil => intro st; rfl
  | cons l ls ih =>
    intro st
    rw [List.foldl_cons, List.foldl_cons, ih, loop1Step_fst]

theorem foldl_getD {α β : Type} (f : α → Option β) (ls : List α) : ∀ a : β,
    ls.foldl (fun h l => (f l).getD h) a = ((ls.filterMap f).getLast?).getD a := by
  induction ls with
  | nil => intro a; rfl
  | cons l ls ih =>
    intro a
    rw [List.foldl_cons, ih, List.filterMap_cons]
    cases hf : f l with
    | none => simp
    | some v =>
      simp only [Option.getD_some]
      cases hfm : ls.filterMap f with
      | nil => simp
      | cons x xs =>
        rw [List.getLast?_cons_cons]
        cases hgl : (x :: xs).getLast? with
        | none => simp [List.getLast?_eq_none_iff] at hgl
        | some w => simp

/-- Counterexample to C7 as stated: with two qualifying root lines the
code reports the capture of the LAST one (the loop at bot.py:234 has no
break), while the first line's capture — which the claim mandates — is
`"A"`. -/
theorem c7_counterexample :
    (extract_roots_and_arabic
        "a root = A core meaning one\nb root = B core meaning two".data).1 = "B".data ∧
    firstRootSpec "a root = A core meaning one\nb root = B core meaning two".data = "A".data ∧
    (extract_roots_and_arabic
        "a root = A core meaning one\nb root = B core meaning two".data).1 ≠
      firstRootSpec "a root = A core meaning one\nb root = B core meaning two".data :=
  ⟨rfl, rfl, by decide⟩

/-- C7 (amended): `rootDescription` is taken from the LAST line containing
`" root ="` on which the root/core-meaning pattern matches, as the trimmed
captured span; if no such line exists it is the sentinel `"unknown"`. -/
theorem c7_amended_last_line (t : List Char) :
    (extract_roots_and_arabic t).1 = lastRootSpec t := by
  have key : ((stripLines t).foldl loop1Step
      ("unknown".data, "none".data, "none".data)).1 =
      (((stripLines t).filterMap rootLineValue).getLast?).getD "unknown".data := by
    rw [loop1_fst, foldl_getD]
  simp only [extract_roots_and_arabic, lastRootSpec]
  split
  · exact key
  · exact key

theorem ex_marker_not_bullet (l : List Char)
    (h : "Arabic examples".data.isPrefixOf l = true) :
    "*".data.isPrefixOf l = false := by
  cases l with
  | nil =>
    rw [show "Arabic examples".data = 'A' :: "rabic examples".data from rfl] at h
    simp [List.isPrefixOf] at h
  | cons c cs =>
    rw [show "Arabic examples".data = 'A' :: "rabic examples".data from rfl] at h
    rw [show "*".data = ['*'] from rfl]
    simp only [List.isPrefixOf, Bool.and_eq_true, beq_iff_eq] at h ⊢
    obtain ⟨rfl, -⟩ := h
    decide

theorem loop2_true (ls : List (List Char)) : ∀ acc : List (List Char),
    (ls.foldl loop2Step (true, acc)).2 =
      acc ++ (ls.filter (fun x => "*".data.isPrefixOf x)).map bulletClean := by
  induction ls with
  | nil => intro acc; simp
  | cons l ls ih =>
    intro acc
    rw [List.foldl_cons]
    by_cases hm : "Arabic examples".data.isPrefixOf l = true
    · have hb := ex_marker_not_bullet l hm
      rw [show loop2Step (true, acc) l = (true, acc) from by simp [loop2Step, hm]]
      rw [ih acc, List.filter_cons]
      simp [hb]
    · by_cases hs : "*".data.isPrefixOf l = true
      · rw [show loop2Step (true, acc) l = (true, acc ++ [bulletClean l]) from by
          simp [loop2Step, hm, hs]]
        rw [ih, List.filter_cons]
        simp [hs, hm]
      · rw [show loop2Step (true, acc) l = (true, acc) from by simp [loop2Step, hm, hs]]
        rw [ih, List.filter_cons]
        simp [hs, hm]

theorem loop2_false (ls : List (List Char)) : ∀ acc : List (List Char),
    (ls.foldl loop2Step (false, acc)).2 = acc ++ bulletsAfterMarker ls := by
  induction ls with
  | nil => intro acc; simp [bulletsAfterMarker]
  | cons l ls ih =>
    intro acc
    rw [List.foldl_cons]
    by_cases hm : "Arabic examples".data.isPrefixOf l = true
    · rw [show loop2Step (false, acc) l = (true, acc) from by simp [loop2Step, hm]]
      rw [loop2_true]
      unfold bulletsAfterMarker
      rw [if_pos hm]
    · rw [show loop2Step (false, acc) l = (false, acc) from by simp [loop2Step, hm]]
      rw [ih]
      conv_rhs => rw [bulletsAfterMarker]
      rw [if_neg hm]

/-- Counterexample to C8 as stated: the `capture` flag (bot.py:251-257) is
never reset, so a bullet line that follows an interrupting prose line is
still collected; the claim's immediate-bullets-only reading would give
`"a"`, the code gives `"a\n* b"`. -/
theorem c8_counterexample :
    (extract_roots_and_arabic
        "Arabic cognate root K = y\nArabic examples:\n* a\nmore prose\n* b".data).2.2 =
      "a\n* b".data ∧
    joinExamples (immediateBullets (stripLines
        "Arabic cognate root K = y\nArabic examples:\n* a\nmore prose\n* b".data)) =
      "a".data ∧
    (extract_roots_and_arabic
        "Arabic cognate root K = y\nArabic examples:\n* a\nmore prose\n* b".data).2.2 ≠
      joinExamples (immediateBullets (stripLines
        "Arabic cognate root K = y\nArabic examples:\n* a\nmore prose\n* b".data)) :=
  ⟨rfl, rfl, by decide⟩

/-- C8 (amended): when a non-"none" cognate root was found,
`cognateExamples` is built from ALL bullet-marker lines occurring after
the first examples-marker line (interrupting non-bullet lines do not stop
the collection), each stripped of its bullet and trimmed, joined with the
first line bare and later lines re-prefixed with `"* "`; if no such line
exists the sentinel is `"none"`. -/
theorem c8_amended_all_bullets (t : List Char)
    (h : (extract_roots_and_arabic t).2.1 ≠ "none".data) :
    (extract_roots_and_arabic t).2.2 =
      joinExamples (bulletsAfterMarker (stripLines t)) := by
  by_cases hc : ((stripLines t).foldl loop1Step
      ("unknown".data, "none".data, "none".data)).2.1 ≠ "none".data
  · simp only [extract_roots_and_arabic, if_pos hc]
    rw [show ((stripLines t).foldl loop2Step (false, [])).2 =
        [] ++ bulletsAfterMarker (stripLines t) from loop2_false _ _]
    rw [List.nil_append]
  · exfalso
    apply h
    simp only [extract_roots_and_arabic, if_neg hc]
    push_neg at hc
    exact hc

/-- Witness for the amended C8: a response with a cognate root and one
bullet example yields that example. -/
theorem c8_amended_all_bullets_witness :
    (extract_roots_and_arabic
        "Arabic cognate root K = y\nArabic examples:\n* first one".data).2.2 =
      joinExamples (bulletsAfterMarker (stripLines
        "Arabic cognate root K = y\nArabic examples:\n* first one".data)) :=
  c8_amended_all_bullets
    "Arabic cognate root K = y\nArabic examples:\n* first one".data (by decide)

theorem lastIdxOf_none (c : Char) : ∀ s : List Char, lastIdxOf c s = none → c ∉ s := by
  intro s
  induction s with
  | nil => intro _; simp
  | cons a r ih =>
    intro h
    cases hr : lastIdxOf c r with
    | some j =>
      simp only [lastIdxOf, hr] at h
      exact absurd h (by simp)
    | none =>
      simp only [lastIdxOf, hr] at h
      by_cases hac : a = c
      · rw [if_pos hac] at h
        exact absurd h (by simp)
      · simp only [List.mem_cons]
        rintro (hca | hcr)
        · exact hac hca.symm
        · exact ih hr hcr

theorem lastIdxOf_some (c : Char) : ∀ (s : List Char) (j : Nat),
    lastIdxOf c s = some j →
    ∃ a b, s = a ++ c :: b ∧ a.length = j ∧ c ∉ b := by
  intro s
  induction s with
  | nil => intro j h; simp [lastIdxOf] at h
  | cons x r ih =>
    intro j h
    cases hr : lastIdxOf c r with
    | some j' =>
      simp only [lastIdxOf, hr] at h
      obtain ⟨a, b, hs, hl, hnb⟩ := ih j' hr
      injection h with h'
      refine ⟨x :: a, b, ?_, ?_, hnb⟩
      · rw [List.cons_append, ← hs]
      · rw [← h']
        simp [hl]
    | none =>
      simp only [lastIdxOf, hr] at h
      by_cases hxc : x = c
      · rw [if_pos hxc] at h
        injection h with h'
        refine ⟨[], r, by rw [hxc]; rfl, h', lastIdxOf_none c r hr⟩
      · rw [if_neg hxc] at h
        exact absurd h (by simp)

theorem greedySpan_some (s g : List Char) (h : greedySpan s = some g) :
    ∃ g0 rest, s = g ++ rest ∧ g = '[' :: g0 ++ [']'] ∧ ']' ∉ rest := by
  unfold greedySpan at h
  split at h
  · rename_i rest'
    split at h
    · rename_i j heq
      injection h with h'
      obtain ⟨a, b, hs, hl, hnb⟩ := lastIdxOf_some ']' rest' j heq
      have ht : rest'.take (j + 1) = a ++ [']'] := by
        rw [hs, ← hl]
        rw [show a.length + 1 = a.length + 1 from rfl]
        rw [List.take_append 1]
        rfl
      refine ⟨a, b, ?_, ?_, hnb⟩
      · rw [← h', ht, hs]
        simp
      · rw [← h', ht]
        simp
    · exact absurd h (by simp)
  · exact absurd h (by simp)

theorem findMarker_some : ∀ (s : List Char) (i st en : Nat) (g : List Char),
    findMarker s i = some (st, en, g) →
    ∃ pre ws rest, s = pre ++ markerL ++ ws ++ g ++ rest ∧ st = i + pre.length ∧
      (∀ c ∈ ws, isPySpace c = true) ∧ (∃ g0, g = '[' :: g0 ++ [']']) ∧ ']' ∉ rest := by
  intro s
  induction s with
  | nil => intro i st en g h; simp [findMarker] at h
  | cons c r ih =>
    intro i st en g h
    by_cases hp : markerL.isPrefixOf (c :: r) = true
    · simp only [findMarker] at h
      rw [if_pos hp] at h
      cases hg : greedySpan (((c :: r).drop markerL.length).dropWhile isPySpace) with
      | some g' =>
        simp only [hg, Option.some.injEq, Prod.mk.injEq] at h
        obtain ⟨h1, _, h3⟩ := h
        have hq : markerL ++ (c :: r).drop markerL.length = c :: r :=
          List.prefix_iff_eq_append.mp (List.isPrefixOf_iff_prefix.mp hp)
        have hsplit : ((c :: r).drop markerL.length).takeWhile isPySpace ++
            ((c :: r).drop markerL.length).dropWhile isPySpace =
            (c :: r).drop markerL.length := List.takeWhile_append_dropWhile _ _
        obtain ⟨g0, rest', hgr, hshape, hnr⟩ := greedySpan_some _ _ hg
        refine ⟨[], ((c :: r).drop markerL.length).takeWhile isPySpace, rest',
          ?_, by simp [← h1], ?_, ⟨g0, by rw [← h3, hshape]⟩, hnr⟩
        · rw [List.nil_append, ← h3]
          rw [show markerL ++ ((c :: r).drop markerL.length).takeWhile isPySpace ++
              g' ++ rest' = markerL ++ (((c :: r).drop markerL.length).takeWhile isPySpace ++
              (g' ++ rest')) from by simp [List.append_assoc]]
          rw [← hgr, hsplit, hq]
        · intro x hx
          exact List.mem_takeWhile_imp hx
      | none =>
        simp only [hg] at h
        obtain ⟨pre, ws, rest', hs, hst, hws, hg0, hnr⟩ := ih (i + 1) st en g h
        refine ⟨c :: pre, ws, rest', by rw [hs]; simp, ?_, hws, hg0, hnr⟩
        rw [hst, List.length_cons]
        omega
    · simp only [findMarker] at h
      rw [if_neg hp] at h
      obtain ⟨pre, ws, rest', hs, hst, hws, hg0, hnr⟩ := ih (i + 1) st en g h
      refine ⟨c :: pre, ws, rest', by rw [hs]; simp, ?_, hws, hg0, hnr⟩
      rw [hst, List.length_cons]
      omega

theorem stripL_bracket (g0 : List Char) :
    stripL ('[' :: g0 ++ [']']) = '[' :: g0 ++ [']'] := by
  apply stripL_eq_self
  · intro c hc
    simp only [List.cons_append, List.head?_cons, Option.some.injEq] at hc
    subst hc
    decide
  · intro c hc
    rw [List.getLast?_concat] at hc
    injection hc with hc'
    subst hc'
    decide

/-- Counterexample to C2 as stated: the group regex `\[[\s\S]*\]` is
greedy, so with a stray unmatched `']'` after the array the extracted
payload runs through the LAST `']'` of the text, not through the `']'`
matching the opening bracket (which would give `"[1]"`). -/
theorem c2_counterexample :
    (processText "A\nDERIVED_JSON: [1]\nsee also ]".data).1 = "A".data ∧
    (processText "A\nDERIVED_JSON: [1]\nsee also ]".data).2 =
      some "[1]\nsee also ]".data ∧
    matchingSpan "[1]\nsee also ]".data = some "[1]".data ∧
    (processText "A\nDERIVED_JSON: [1]\nsee also ]".data).2 ≠ some "[1]".data :=
  ⟨rfl, rfl, rfl, by decide⟩

/-- C2 (amended): when the marker search succeeds, the extractor returns
everything before the matched marker occurrence (trimmed) as the display
text, and a payload that starts at the first `'[' `after the marker and
runs through the LAST `']'` of the cleaned text (no `']'` remains after
it) — not merely through the matching `']'`. -/
theorem c2_amended_greedy_span (t : List Char) (st en : Nat) (g : List Char)
    (h : findMarker (cleanStrip t) 0 = some (st, en, g)) :
    processText t = (stripL ((cleanStrip t).take st), some g) ∧
    ∃ ws rest, cleanStrip t = (cleanStrip t).take st ++ markerL ++ ws ++ g ++ rest ∧
      (∀ c ∈ ws, isPySpace c = true) ∧ (∃ g0, g = '[' :: g0 ++ [']']) ∧ ']' ∉ rest := by
  obtain ⟨pre, ws, rest, hs, hst, hws, ⟨g0, hshape⟩, hnr⟩ :=
    findMarker_some _ 0 st en g h
  have hpre : (cleanStrip t).take st = pre := by
    rw [hs, hst, Nat.zero_add]
    simp only [List.append_assoc]
    rw [List.take_left]
  constructor
  · simp only [processText, h]
    rw [hshape, stripL_bracket]
  · refine ⟨ws, rest, ?_, hws, ⟨g0, hshape⟩, hnr⟩
    rw [hpre]
    exact hs

/-- Witness for the amended C2: a well-formed marker response decomposes
as display text + marker + whitespace + greedy span. -/
theorem c2_amended_greedy_span_witness :
    processText "Analysis here\nDERIVED_JSON: [1, 2]".data =
      (stripL ((cleanStrip "Analysis here\nDERIVED_JSON: [1, 2]".data).take 14),
       some "[1, 2]".data) ∧
    ∃ ws rest, cleanStrip "Analysis here\nDERIVED_JSON: [1, 2]".data =
        (cleanStrip "Analysis here\nDERIVED_JSON: [1, 2]".data).take 14 ++ markerL ++
          ws ++ "[1, 2]".data ++ rest ∧
      (∀ c ∈ ws, isPySpace c = true) ∧ (∃ g0, "[1, 2]".data = '[' :: g0 ++ [']']) ∧
      ']' ∉ rest :=
  c2_amended_greedy_span "Analysis here\nDERIVED_JSON: [1, 2]".data 14 34
    "[1, 2]".data (by decide)
